import Mathlib

/-!
Formal model of the b4 virtual machine (b4.c): a stack machine with 4-bit
opcodes, a variable-length binary-coded-decimal integer codec, a one-pass
assembler, a position-keyed branch-target cache, and call frames.

The bytecode is modelled as a list of nibble values (the C code packs two
nibbles per byte and unpacks them with the rd/pk macros; the packing is a
pure storage layout, so the model works on the unpacked nibble sequence).
Machine integers (C type T = int32_t) are modelled as unbounded Int; no
claim in this development depends on 32-bit wrap-around.  Inner loops of
the C code are modelled as structurally recursive functions on an explicit
fuel argument, with the canonical fuel chosen large enough that the fuel
never runs out on the executions the C code defines; running out of fuel
models the executions on which the C code runs into undefined behaviour
(reads past the end of the code buffer).
-/

set_option maxRecDepth 8000

namespace B4

/-! Opcode values, from the opcode enum of b4.c. -/

def C_BCD : Nat := 0
def C_ADD : Nat := 1
def C_SUB : Nat := 2
def C_MUL : Nat := 3
def C_RWS : Nat := 4
def C_RDA : Nat := 5
def C_STA : Nat := 6
def C_POP : Nat := 7
def C_SWP : Nat := 8
def C_DFN : Nat := 9
def C_RUN : Nat := 10
def C_RET : Nat := 11
def C_JAO : Nat := 12
def C_JAC : Nat := 13
def C_JBO : Nat := 14
def C_JBC : Nat := 15

/-- Terminator codes of the BCD stream: BCD_N is the plain end, BCD_P the
prefixed end (enum BCD_N=10, BCD_P=11 in b4.c). -/
def BCD_N : Nat := 10

/-- Prefixed-end terminator code, see BCD_N. -/
def BCD_P : Nat := 11

/-!
Variable-length integer codec.

emitBCD in b4.c first writes the decimal digits of v least-significant
first into a scratch buffer (a do-while loop, so 0 still yields one digit),
takes the most significant digit off as b, emits the C_BCD opcode, emits b
when 1 < b, emits the remaining digits most-significant first, and closes
with BCD_P when b = 1 and BCD_N otherwise.
-/

/-- Decimal digits of v, least significant first, one digit minimum,
mirroring the do-while digit loop of emitBCD.  The fuel argument only makes
the recursion structural; v + 1 units are always enough. -/
def digitsRevAux : Nat → Nat → List Nat
  | _, 0 => []
  | v, fuel + 1 => v % 10 :: (if v / 10 = 0 then [] else digitsRevAux (v / 10) fuel)

/-- Digits of v least significant first (the scratch buffer of emitBCD). -/
def digitsRev (v : Nat) : List Nat := digitsRevAux v (v + 1)

/-- Leading (most significant) decimal digit of v, the value `b` that
emitBCD takes off the digit buffer. -/
def msd (v : Nat) : Nat := (digitsRev v).getLastD 0

/-- Digit and terminator nibbles emitBCD writes after the C_BCD opcode. -/
def bcdBody (v : Nat) : List Nat :=
  let ds := digitsRev v
  let b := ds.getLastD 0
  (if 1 < b then [b] else []) ++ ds.dropLast.reverse ++ [if b = 1 then BCD_P else BCD_N]

/-- Full nibble sequence emitted by emitBCD for value v: the C_BCD opcode
followed by the digit stream and its terminator. -/
def emitBCDL (v : Nat) : List Nat := C_BCD :: bcdBody v

/-- Decoder loop of bcd() in b4.c, on an explicit nibble list: digit codes
accumulate v = v*10 + c and b = b*10; BCD_N yields v, BCD_P yields v + b;
codes 12..15 are a fatal decoding error (modelled as none), as is running
off the end of the stream. -/
def bcdDecodeL : Nat → Nat → List Nat → Option Nat
  | _, _, [] => none
  | v, b, c :: rest =>
    if c ≤ 9 then bcdDecodeL (v * 10 + c) (b * 10) rest
    else if c = BCD_N then some v
    else if c = BCD_P then some (v + b)
    else none

/-- Number of digit codes (values 0..9) in the emitted stream of v. -/
def digitCodeCount (v : Nat) : Nat := ((bcdBody v).filter (fun c => decide (c ≤ 9))).length

/-- Number of decimal digits of v. -/
def numDigits (v : Nat) : Nat := (digitsRev v).length

/-- The encoding of v omits its leading digit when the emitted stream holds
fewer digit codes than v has decimal digits. -/
def omitsLeading (v : Nat) : Prop := digitCodeCount v < numDigits v

/-- The encoding of v ends in the prefixed-end terminator. -/
def prefixedEnd (v : Nat) : Prop := (bcdBody v).getLastD 0 = BCD_P

/-! The machine state. -/

/-- Runtime errors: bcd() on a code 12..15, swi() on an unknown id, jmp()
or dfn_close() failing to find a match, the hlt builtin, and assembly
failure (collapsing the assembler's fatal diagnostics). -/
inductive VmErr where
  | badBCD
  | badFn
  | hlt
  | noMatch
  | noDfn
  | asmFail
deriving DecidableEq

/-- Call frame (struct fr in b4.c): the caller's code range, return
position and register value. -/
structure Frame where
  start : Nat
  stop : Nat
  ip : Nat
  ra : Int

/-- The interpreter state: operand stack as the C array st plus stack
pointer sp (the array is total and zero-initialised, matching the static
zero-initialised globals; sp is an Int so that the unchecked pop of the C
code is representable below index 0), register ra, current code range
start/stop with instruction pointer ip (nibble index), the call frames,
the function table fn (id to start/stop pair, stop = 0 meaning unbound),
the branch cache jtbl (none = BADIP), and the bytes written to standard
output so far. -/
structure St where
  stf : Int → Int
  sp : Int
  ra : Int
  ip : Nat
  start : Nat
  stop : Nat
  frames : List Frame
  fns : Int → Nat × Nat
  jtbl : Nat → Option Nat
  out : List Int

/-- Nibble at position i of the code (the pk/rd macros of b4.c, on the
unpacked nibble list). -/
def nib (code : List Nat) (i : Nat) : Nat := code.getD i 0

/-- The pop macro st[--sp]: no bounds check, exactly as in the C source. -/
def stPop (s : St) : Int × St := (s.stf (s.sp - 1), { s with sp := s.sp - 1 })

/-- The push macro st[sp++] = v. -/
def stPush (v : Int) (s : St) : St :=
  { s with stf := fun i => if i = s.sp then v else s.stf i, sp := s.sp + 1 }

/-- Binary operation on the stack: pop y, pop x, push f y x.  The first
value popped is passed first; the opcode enum of b4.c documents ADD, SUB
and MUL as pop X, pop Y, push X op Y with X the first pop, and the negate
example in its header relies on that order for SUB. -/
def popPush2 (f : Int → Int → Int) (s : St) : St :=
  let p1 := stPop s
  let p2 := stPop p1.2
  stPush (f p1.1 p2.1) p2.2

/-- The bcd() loop of b4.c reading from the code at ip with int
accumulators; returns the decoded value and the position past the
terminator. -/
def bcdExecAux : Nat → List Nat → Nat → Int → Int → Option (Int × Nat)
  | 0, _, _, _, _ => none
  | fuel + 1, code, ip, v, b =>
    let c := nib code ip
    if c ≤ 9 then bcdExecAux fuel code (ip + 1) (v * 10 + (c : Int)) (b * 10)
    else if c = BCD_N then some (v, ip + 1)
    else if c = BCD_P then some (v + b, ip + 1)
    else none

/-- bcd() at position ip; the canonical fuel outlasts any terminated scan
inside the code buffer. -/
def bcdExec (code : List Nat) (ip : Nat) : Option (Int × Nat) :=
  bcdExecAux (code.length + 2) code ip 0 1

/-- The inner scan of dfn_close(): starting at ip, advance while the
position is below stop and the nibble is neither BCD terminator. -/
def skipBCDAux : Nat → List Nat → Nat → Nat → Nat
  | 0, _, _, ip => ip
  | fuel + 1, code, stop, ip =>
    if stop ≤ ip then ip
    else if nib code ip = BCD_N then ip
    else if nib code ip = BCD_P then ip
    else skipBCDAux fuel code stop (ip + 1)

/-- Inner literal-skipping scan of dfn_close() with its canonical fuel. -/
def skipBCD (code : List Nat) (stop ip : Nat) : Nat :=
  skipBCDAux (stop + 1 - ip) code stop ip

/-- dfn_close() of b4.c: scan from ip below stop for a C_DFN nibble,
returning the position just past it; a C_BCD nibble makes the scan skip to
just past the literal's terminator so that a terminator inside a literal is
not mistaken for the function's own; reaching stop without a match is the
fatal missing-terminator error (none). -/
def dfnCloseAux : Nat → List Nat → Nat → Nat → Option Nat
  | 0, _, _, _ => none
  | fuel + 1, code, ip, stop =>
    if stop ≤ ip then none
    else if nib code ip = C_DFN then some (ip + 1)
    else if nib code ip = C_BCD then dfnCloseAux fuel code (skipBCD code stop ip + 1) stop
    else dfnCloseAux fuel code (ip + 1) stop

/-- dfn_close() with its canonical fuel. -/
def dfnClose (code : List Nat) (ip stop : Nat) : Option Nat :=
  dfnCloseAux (stop + 1 - ip) code ip stop

/-- The scan loop of jmp() in b4.c: from ip toward stop in steps of +1
(fwd = true) or -1, tracking nesting depth: the opn code increases depth, a
cls code at depth 0 is the match (result: the position just past it);
reaching stop is the fatal unmatched-bracket error (none). -/
def jmpScanAux : Nat → List Nat → Nat → Nat → Bool → Nat → Nat → Nat → Option Nat
  | 0, _, _, _, _, _, _, _ => none
  | fuel + 1, code, opn, cls, fwd, stop, ip, depth =>
    if ip = stop then none
    else
      let c := nib code ip
      let ip2 := if fwd then ip + 1 else ip - 1
      if c = opn then jmpScanAux fuel code opn cls fwd stop ip2 (depth + 1)
      else if c = cls then
        (if depth = 0 then some (ip + 1) else jmpScanAux fuel code opn cls fwd stop ip2 (depth - 1))
      else jmpScanAux fuel code opn cls fwd stop ip2 depth

/-- jmp() scan with its canonical fuel (one unit per position between ip
and the boundary). -/
def jmpScan (code : List Nat) (opn cls : Nat) (fwd : Bool) (stop ip : Nat) : Option Nat :=
  jmpScanAux (max ip stop - min ip stop + 1) code opn cls fwd stop ip 0

/-- Step outcome: continue in a new state, run complete, or fatal error. -/
inductive SR where
  | next (s : St)
  | done (s : St)
  | err (e : VmErr)

/-- Frame pop of frloop() in b4.c: fp is decremented and, when it reaches
zero, the run is complete (the popped entry frame is not restored);
otherwise the popped frame's range, return position and register are
restored. -/
def frameRet (s : St) : SR :=
  match s.frames with
  | [] => SR.done s
  | f :: rest =>
    if rest.isEmpty then SR.done { s with frames := [] }
    else SR.next { s with ip := f.ip, start := f.start, stop := f.stop, ra := f.ra, frames := rest }

/-- The loop-scan helper of sayScan: while (s && st[s]) s--, returning the
index where the scan stops.  Note the scan starts by testing st at the
initial index itself, which for the say builtin is st[sp], one slot above
the top of the stack. -/
def sayScanN (stf : Int → Int) : Nat → Nat
  | 0 => 0
  | k + 1 => if stf ((k : Int) + 1) = 0 then k + 1 else sayScanN stf k

/-- swi() of b4.c: the built-in functions.  Id 0 (top) prints the value on
top of the stack (modelled as appending that value to the output), id 1
(say) scans down from st[sp] to a zero or the stack bottom, resets sp
there, writes the bytes from that index up to the old sp followed by a
newline, id 2 (hlt) terminates, anything else is a fatal error. -/
def swi (id : Int) (s : St) : SR :=
  if id = 0 then SR.next { s with out := s.out ++ [s.stf (s.sp - 1)] }
  else if id = 1 then
    let e : Nat := s.sp.toNat
    let lo : Nat := sayScanN s.stf e
    SR.next { s with sp := (lo : Int),
                     out := s.out ++ ((List.range (e - lo)).map (fun k => s.stf ((lo : Int) + (k : Int)))) ++ [10] }
  else if id = 2 then SR.err VmErr.hlt
  else SR.err VmErr.badFn

/-- The bound-function branch of run() in b4.c: push a frame holding the
caller's register, return position and code range, switch to the callee's
range, and zero the register. -/
def runFn (id : Int) (s : St) : St :=
  { s with frames := { start := s.start, stop := s.stop, ip := s.ip, ra := s.ra } :: s.frames,
           start := (s.fns id).1,
           stop := (s.fns id).2,
           ip := (s.fns id).1,
           ra := 0 }

/-- Branch resolution step shared by the four bracket opcodes: consult the
cache (when cached is set) and otherwise scan, storing the fresh result in
the cache (when cached is set).  With cached = false this is the pure
fresh-scan reference semantics. -/
def jmpGo (cached : Bool) (code : List Nat) (opn cls : Nat) (fwd : Bool) (stop : Nat) (s : St) : SR :=
  match (if cached then s.jtbl s.ip else none) with
  | some t => SR.next { s with ip := t }
  | none =>
    match jmpScan code opn cls fwd stop s.ip with
    | some t =>
      SR.next { s with ip := t,
                       jtbl := if cached then (fun k => if k = s.ip then some t else s.jtbl k) else s.jtbl }
    | none => SR.err VmErr.noMatch

/-- One iteration of the exe() dispatch loop of b4.c, merged with the
frame-popping of frloop(): when ip has reached the end of the active range
or a C_RET is executed, the top frame is popped.  The cached flag selects
whether jmp() uses the jtbl cache (the C code) or always scans fresh. -/
def step (cached : Bool) (code : List Nat) (s0 : St) : SR :=
  if s0.stop ≤ s0.ip then frameRet s0
  else
    let c := nib code s0.ip
    let s : St := { s0 with ip := s0.ip + 1 }
    if c = C_BCD then
      match bcdExec code s.ip with
      | some (v, ip2) => SR.next (stPush v { s with ip := ip2 })
      | none => SR.err VmErr.badBCD
    else if c = C_ADD then SR.next (popPush2 (fun y x => y + x) s)
    else if c = C_SUB then SR.next (popPush2 (fun y x => y - x) s)
    else if c = C_MUL then SR.next (popPush2 (fun y x => y * x) s)
    else if c = C_RWS then
      let p1 := stPop s
      let i := p1.1
      let s1 := p1.2
      if 0 ≤ i then SR.next (stPush (s1.stf (s1.sp - 1 - i)) s1)
      else
        let p2 := stPop s1
        SR.next { p2.2 with stf := fun j => if j = p2.2.sp + i then p2.1 else p2.2.stf j }
    else if c = C_RDA then
      let p1 := stPop s
      SR.next { p1.2 with ra := p1.1 }
    else if c = C_STA then SR.next (stPush s.ra s)
    else if c = C_POP then SR.next (stPop s).2
    else if c = C_SWP then
      let p1 := stPop s
      let p2 := stPop p1.2
      SR.next (stPush p2.1 (stPush p1.1 p2.2))
    else if c = C_DFN then
      let p1 := stPop s
      let s1 := p1.2
      match dfnClose code s1.ip s1.stop with
      | some r =>
        SR.next { s1 with fns := fun k => if k = p1.1 then (s1.ip, r - 1) else s1.fns k, ip := r }
      | none => SR.err VmErr.noDfn
    else if c = C_RUN then
      let p1 := stPop s
      let s1 := p1.2
      if (s1.fns p1.1).2 = 0 then swi p1.1 s1 else SR.next (runFn p1.1 s1)
    else if c = C_RET then frameRet s
    else if c = C_JAO then
      let p1 := stPop s
      if p1.1 = 0 then jmpGo cached code C_JAO C_JAC true p1.2.stop p1.2 else SR.next p1.2
    else if c = C_JAC then
      if s.ra = 0 then SR.next s
      else jmpGo cached code C_JAC C_JAO false s.start { s with ra := s.ra - 1, ip := s.ip - 2 }
    else if c = C_JBO then
      let p1 := stPop s
      if p1.1 ≤ 0 then jmpGo cached code C_JBO C_JBC true p1.2.stop p1.2 else SR.next p1.2
    else
      if s.ra = 0 then SR.next s
      else jmpGo cached code C_JBC C_JBO false s.start { s with ra := s.ra - 1, ip := s.ip - 2 }

/-- Run the machine for at most fuel steps; none means fuel ran out. -/
def drive (cached : Bool) (code : List Nat) : Nat → St → Option (Except VmErr St)
  | 0, _ => none
  | fuel + 1, s =>
    match step cached code s with
    | SR.next s2 => drive cached code fuel s2
    | SR.done s2 => some (Except.ok s2)
    | SR.err e => some (Except.error e)

/-! The assembler b4asmS of b4.c, on byte lists (ASCII codes). -/

/-- isalpha of the C locale. -/
def isAl (n : Nat) : Bool := (decide (65 ≤ n) && decide (n ≤ 90)) || (decide (97 ≤ n) && decide (n ≤ 122))

/-- isdigit. -/
def isDg (n : Nat) : Bool := decide (48 ≤ n) && decide (n ≤ 57)

/-- isalnum or underscore: the identifier continuation test. -/
def isIdC (n : Nat) : Bool := isAl n || isDg n || decide (n = 95)

/-- Letter or underscore: the identifier start test. -/
def identStart (n : Nat) : Bool := isAl n || decide (n = 95)

/-- sym() of b4.c: return the id of an interned name, or intern it as the
next id; the table overflowing at 1024 names is a fatal error. -/
def sym (tbl : List (List Nat)) (nm : List Nat) : Option (Nat × List (List Nat)) :=
  match tbl.indexOf? nm with
  | some i => some (i, tbl)
  | none => if tbl.length = 1024 then none else some (tbl.length, tbl ++ [nm])

/-- The quoted-string loop of b4asmS: each character (a backslash escaping
the next character verbatim) is emitted as a codec literal until the
closing quote; a backslash as the final character makes the C code read the
terminating NUL of the command string, emit a literal 0 and run past the
end-of-input check without an error, so that case emits a literal 0 and
ends the input; plain end of input without a closing quote is the fatal
unterminated-quote error. -/
def qAux : Nat → List Nat → Option (List Nat × List Nat)
  | 0, _ => none
  | _ + 1, [] => none
  | fuel + 1, c :: r =>
    if c = 39 then some ([], r)
    else if c = 92 then
      match r with
      | [] => some (emitBCDL 0, [])
      | d :: r2 => (qAux fuel r2).map (fun q => (emitBCDL d ++ q.1, q.2))
    else (qAux fuel r).map (fun q => (emitBCDL c ++ q.1, q.2))

/-- b4asmS of b4.c: one left-to-right pass over the source bytes with the
pending-call flag rn (the local variable run), producing the emitted nibble
list and the final symbol table; none is any of the fatal assembly errors.
The fuel only makes the recursion structural; length + 1 units are always
enough since every iteration consumes at least one byte. -/
def asmAux : Nat → List Nat → Bool → List (List Nat) → Option (List Nat × List (List Nat))
  | _, [], _, tbl => some ([], tbl)
  | 0, _ :: _, _, _ => none
  | fuel + 1, c :: p, rn, tbl =>
    if identStart c then
      let nm := c :: p.takeWhile isIdC
      let rest := p.dropWhile isIdC
      if 256 ≤ nm.length then none
      else
        match sym tbl nm with
        | none => none
        | some (id, tbl2) =>
          (asmAux fuel rest false tbl2).map
            (fun r => (emitBCDL id ++ (if rn then [C_RUN] else []) ++ r.1, r.2))
    else if c = 39 then
      match qAux (p.length + 1) p with
      | none => none
      | some (q, rest) =>
        (asmAux fuel rest rn tbl).map (fun r => (emitBCDL 0 ++ q ++ r.1, r.2))
    else if c = 32 then asmAux fuel p rn tbl
    else if c = 10 then asmAux fuel p rn tbl
    else if isDg c then
      let b := c - 48
      let ds := (p.takeWhile isDg).map (fun d => d - 48)
      let rest := p.dropWhile isDg
      (asmAux fuel rest rn tbl).map
        (fun r => (C_BCD :: ((if 1 < b then [b] else []) ++ ds ++ [if b = 1 then BCD_P else BCD_N]) ++ r.1, r.2))
    else if c = 43 then (asmAux fuel p rn tbl).map (fun r => (C_ADD :: r.1, r.2))
    else if c = 45 then (asmAux fuel p rn tbl).map (fun r => (C_SUB :: r.1, r.2))
    else if c = 42 then (asmAux fuel p rn tbl).map (fun r => (C_MUL :: r.1, r.2))
    else if c = 91 then (asmAux fuel p rn tbl).map (fun r => (C_JAO :: r.1, r.2))
    else if c = 93 then (asmAux fuel p rn tbl).map (fun r => (C_JAC :: r.1, r.2))
    else if c = 60 then (asmAux fuel p rn tbl).map (fun r => (C_JBO :: r.1, r.2))
    else if c = 62 then (asmAux fuel p rn tbl).map (fun r => (C_JBC :: r.1, r.2))
    else if c = 58 then (asmAux fuel p rn tbl).map (fun r => (C_DFN :: r.1, r.2))
    else if c = 46 then
      if identStart (p.headD 0) then asmAux fuel p true tbl
      else (asmAux fuel p rn tbl).map (fun r => (C_RUN :: r.1, r.2))
    else if c = 64 then (asmAux fuel p rn tbl).map (fun r => (C_RET :: r.1, r.2))
    else if c = 36 then (asmAux fuel p rn tbl).map (fun r => (C_RWS :: r.1, r.2))
    else if c = 33 then (asmAux fuel p rn tbl).map (fun r => (C_POP :: r.1, r.2))
    else if c = 44 then (asmAux fuel p rn tbl).map (fun r => (C_SWP :: r.1, r.2))
    else if c = 61 then (asmAux fuel p rn tbl).map (fun r => (C_RDA :: r.1, r.2))
    else if c = 63 then (asmAux fuel p rn tbl).map (fun r => (C_STA :: r.1, r.2))
    else if c = 37 then (asmAux fuel p rn tbl).map (fun r => (C_BCD :: BCD_N :: C_RWS :: r.1, r.2))
    else none

/-- b4asmS from a given source position with the canonical fuel. -/
def asmFrom (p : List Nat) (rn : Bool) (tbl : List (List Nat)) : Option (List Nat × List (List Nat)) :=
  asmAux (p.length + 1) p rn tbl

/-- Symbol table after init() of b4.c: top, say, hlt, _entry (ids 0..3). -/
def initTbl : List (List Nat) :=
  [[116, 111, 112], [115, 97, 121], [104, 108, 116], [95, 101, 110, 116, 114, 121]]

/-- b4asm on a command already interned with the predefined names. -/
def b4asm (src : List Nat) : Option (List Nat) := (asmFrom src false initTbl).map (fun r => r.1)

/-- Machine state at the top of frloop() in b4cmd(): all globals zeroed,
the _entry function (id 3) bound to the whole code, and run(_entry) already
performed, so the single frame holds the zeroed prior globals. -/
def initSt (csz : Nat) : St :=
  { stf := fun _ => 0
    sp := 0
    ra := 0
    ip := 0
    start := 0
    stop := csz
    frames := [{ start := 0, stop := 0, ip := 0, ra := 0 }]
    fns := fun i => if i = 3 then (0, csz) else (0, 0)
    jtbl := fun _ => none
    out := [] }

/-- b4cmd of b4.c: assemble the source and run it; cached selects the jtbl
branch cache (true is the C code, false the fresh-scan reference), fuel
bounds the number of interpreter steps. -/
def runProg (cached : Bool) (fuel : Nat) (src : List Nat) : Option (Except VmErr St) :=
  match b4asm src with
  | none => some (Except.error VmErr.asmFail)
  | some code => drive cached code fuel (initSt code.length)

/-- The operand stack as a list, bottom first. -/
def stackList (s : St) : List Int := (List.range s.sp.toNat).map (fun i => s.stf (i : Int))

/-- Final operand stack of a completed run. -/
def finStack : Option (Except VmErr St) → Option (List Int)
  | some (Except.ok s) => some (stackList s)
  | _ => none

/-- Final register of a completed run. -/
def finRa : Option (Except VmErr St) → Option Int
  | some (Except.ok s) => some s.ra
  | _ => none

/-- Final stack pointer of a completed run. -/
def finSp : Option (Except VmErr St) → Option Int
  | some (Except.ok s) => some s.sp
  | _ => none

/-- Final output of a completed run. -/
def finOut : Option (Except VmErr St) → Option (List Int)
  | some (Except.ok s) => some s.out
  | _ => none

/-- Whether the run completed without a fatal error. -/
def finOk : Option (Except VmErr St) → Bool
  | some (Except.ok _) => true
  | _ => false

/-- The code holds the nibble sequence l at position i. -/
def codeAt (code : List Nat) (i : Nat) (l : List Nat) : Prop :=
  ∀ j, j < l.length → nib code (i + j) = l.getD j 0

/-! Concrete source programs used by the theorems, as ASCII byte lists. -/

/-- Source text: 3 4 + -/
def src34p : List Nat := [51, 32, 52, 32, 43]

/-- Source text: 5 2 - -/
def src52m : List Nat := [53, 32, 50, 32, 45]

/-- Source text: a single + on an empty stack. -/
def srcPlus : List Nat := [43]

/-- Source text: (quote)Hi(quote).say -/
def srcHiSay : List Nat := [39, 72, 105, 39, 46, 115, 97, 121]

/-- Source text: f:%+:5=3.f (define f as the doubling function, set the
register to 5, call f on 3). -/
def srcDouble : List Nat := [102, 58, 37, 43, 58, 53, 61, 51, 46, 102]

/-- Source text: f:1=[?]:1.f 0.f (f runs a one-nibble loop body; the first
call takes the loop, the second reaches the opening bracket with 0). -/
def srcCache : List Nat := [102, 58, 49, 61, 91, 63, 93, 58, 49, 46, 102, 32, 48, 46, 102]

/-- Source text: .a -/
def srcDotA : List Nat := [46, 97]

/-- A small concrete state with 3 and 5 pushed, used to instantiate the
general stack and frame theorems. -/
def demoSt : St := stPush 5 (stPush 3 (initSt 0))

/-! Helper lemmas about the digit buffer of emitBCD. -/

/-- The result of the digit loop does not depend on the fuel, as long as the
fuel exceeds the value. -/
theorem digitsRevAux_fuel : ∀ f1 f2 v, v < f1 → v < f2 →
    digitsRevAux v f1 = digitsRevAux v f2 := by
  intro f1
  induction f1 with
  | zero => intro f2 v h1 _; omega
  | succ f ih =>
    intro f2 v h1 h2
    cases f2 with
    | zero => omega
    | succ g =>
      simp only [digitsRevAux]
      by_cases hz : v / 10 = 0
      · simp [hz]
      · have hlt : v / 10 < v := Nat.div_lt_self (by omega) (by norm_num)
        simp only [hz, if_neg, ite_false]
        rw [ih g (v / 10) (by omega) (by omega)]

/-- Structure of the digit buffer: one digit minimum, least significant
first, every entry a decimal digit, the last entry the leading digit (at
least 1 for positive values), and reading the buffer back most significant
first recovers the value. -/
theorem digitsRev_spec (v : Nat) :
    ∃ dl g, digitsRev v = dl ++ [g] ∧ (∀ d ∈ dl, d < 10) ∧ g < 10 ∧
      ((dl ++ [g]).reverse).foldl (fun a d => a * 10 + d) 0 = v ∧
      (1 ≤ v → 1 ≤ g) ∧ (v = 0 → dl = [] ∧ g = 0) := by
  induction v using Nat.strong_induction_on with
  | _ v ih =>
    by_cases hz : v / 10 = 0
    · refine ⟨[], v % 10, ?_, by simp, Nat.mod_lt _ (by norm_num), ?_, ?_, ?_⟩
      · simp [digitsRev, digitsRevAux, hz]
      · show List.foldl (fun a d => a * 10 + d) 0 (([] ++ [v % 10]).reverse) = v
        have he : (([] ++ [v % 10]).reverse) = [v % 10] := by simp
        rw [he, List.foldl_cons, List.foldl_nil]
        show 0 * 10 + v % 10 = v
        omega
      · omega
      · intro h
        exact ⟨rfl, by omega⟩
    · have hlt : v / 10 < v := Nat.div_lt_self (by omega) (by norm_num)
      obtain ⟨dl, g, hds, hdl, hg, hval, hpos, hzero⟩ := ih (v / 10) hlt
      have hstep : digitsRev v = v % 10 :: digitsRev (v / 10) := by
        show digitsRevAux v (v + 1) = v % 10 :: digitsRev (v / 10)
        simp only [digitsRevAux, hz, ite_false, if_neg]
        rw [digitsRevAux_fuel v (v / 10 + 1) (v / 10) (by omega) (by omega)]
        rfl
      refine ⟨v % 10 :: dl, g, ?_, ?_, hg, ?_, fun _ => hpos (by omega), by omega⟩
      · rw [hstep, hds]; rfl
      · intro d hd
        rcases List.mem_cons.mp hd with h | h
        · omega
        · exact hdl d h
      · have hrev : ((v % 10 :: dl) ++ [g]).reverse = (dl ++ [g]).reverse ++ [v % 10] := by
          simp
        rw [hrev, List.foldl_append, hval]
        simp; omega

/-- Shifting the accumulator of the base-10 digit fold. -/
theorem foldl_mul_shift : ∀ (L : List Nat) (acc : Nat),
    L.foldl (fun a d => a * 10 + d) acc = acc * 10 ^ L.length + L.foldl (fun a d => a * 10 + d) 0 := by
  intro L
  induction L with
  | nil => simp
  | cons d t ih =>
    intro acc
    simp only [List.foldl_cons, List.length_cons]
    rw [ih (acc * 10 + d), ih (0 * 10 + d)]
    ring

/-- Feeding digit codes to the decoder loop multiplies the place value by
10 per digit and folds the digits into the accumulator. -/
theorem bcdDecodeL_digits : ∀ (L : List Nat) (v b : Nat) (rest : List Nat),
    (∀ d ∈ L, d < 10) →
    bcdDecodeL v b (L ++ rest) =
      bcdDecodeL (L.foldl (fun a d => a * 10 + d) v) (b * 10 ^ L.length) rest := by
  intro L
  induction L with
  | nil => simp
  | cons d t ih =>
    intro v b rest h
    have hd : d ≤ 9 := by have := h d (by simp); omega
    simp only [List.cons_append, bcdDecodeL, if_pos hd, List.append_eq]
    rw [ih _ _ _ (fun x hx => h x (by simp [hx]))]
    simp only [List.foldl_cons, List.length_cons]
    congr 1
    ring

/-- Unfolded shape of bcdBody in terms of the digit-buffer decomposition. -/
theorem bcdBody_eq (v : Nat) (dl : List Nat) (g : Nat) (hds : digitsRev v = dl ++ [g]) :
    bcdBody v = (if 1 < g then [g] else []) ++ dl.reverse ++ [if g = 1 then BCD_P else BCD_N] := by
  unfold bcdBody
  rw [hds]
  simp [List.getLastD_concat, List.dropLast_concat]

/-- CLAIM C2: for every non-negative integer v, the nibble sequence written
by emitBCD is the C_BCD opcode followed by the digit/terminator stream, and
the bcd decoder loop (v = v*10 + d, b = b*10 per digit, plus b exactly on
the prefixed-end terminator) decodes that stream back to v. -/
theorem c2_codec_roundtrip (v : Nat) :
    emitBCDL v = C_BCD :: bcdBody v ∧ bcdDecodeL 0 1 (bcdBody v) = some v := by
  refine ⟨rfl, ?_⟩
  obtain ⟨dl, g, hds, hdl, hg, hval, hpos, hzero⟩ := digitsRev_spec v
  have hbody := bcdBody_eq v dl g hds
  have htermP : ∀ a b : Nat, bcdDecodeL a b [BCD_P] = some (a + b) := by
    intro a b; simp [bcdDecodeL, BCD_P, BCD_N]
  have htermN : ∀ a b : Nat, bcdDecodeL a b [BCD_N] = some a := by
    intro a b; simp [bcdDecodeL, BCD_N]
  have hA : v = g * 10 ^ dl.length + dl.reverse.foldl (fun a d => a * 10 + d) 0 := by
    have h1 : (dl ++ [g]).reverse = g :: dl.reverse := by simp
    rw [h1, List.foldl_cons, foldl_mul_shift dl.reverse (0 * 10 + g)] at hval
    simp only [List.length_reverse, Nat.zero_mul, Nat.zero_add] at hval
    omega
  have hdlrev : ∀ d ∈ dl.reverse, d < 10 := by
    intro d hd; exact hdl d (List.mem_reverse.mp hd)
  by_cases h0 : v = 0
  · subst h0
    decide
  · have hg1 : 1 ≤ g := hpos (by omega)
    by_cases hgo : g = 1
    · rw [hbody]
      have hsh : (if 1 < g then [g] else []) ++ dl.reverse ++ [if g = 1 then BCD_P else BCD_N] =
          dl.reverse ++ [BCD_P] := by
        rw [hgo]; norm_num
      rw [hsh, bcdDecodeL_digits dl.reverse 0 1 [BCD_P] hdlrev, htermP]
      congr 1
      rw [List.length_reverse]
      rw [hgo] at hA
      omega
    · have hgg : 1 < g := by omega
      rw [hbody]
      have hsh : (if 1 < g then [g] else []) ++ dl.reverse ++ [if g = 1 then BCD_P else BCD_N] =
          (g :: dl.reverse) ++ [BCD_N] := by
        rw [if_pos hgg, if_neg hgo]; simp
      rw [hsh, bcdDecodeL_digits (g :: dl.reverse) 0 1 [BCD_N]
        (by
          intro d hd
          rcases List.mem_cons.mp hd with h | h
          · omega
          · exact hdlrev d h), htermN]
      congr 1
      rw [List.foldl_cons, foldl_mul_shift dl.reverse (0 * 10 + g), List.length_reverse]
      simp only [Nat.zero_mul, Nat.zero_add]
      omega

/-- CLAIM C8 (counterexample): at v = 0 the encoder emits no digit code at
all (the stream is just the plain-end terminator), so the leading digit is
omitted even though the most significant digit of 0 is 0, not 1, and the
terminator is not the prefixed end; the claimed equivalences fail at 0. -/
theorem c8_leading_digit_counterexample :
    ¬ ((omitsLeading 0 ↔ msd 0 = 1) ∧ (prefixedEnd 0 ↔ msd 0 = 1)) := by
  unfold omitsLeading prefixedEnd msd digitCodeCount numDigits
  decide

/-- CLAIM C8 (amended): for every positive integer v, the encoder omits the
explicit leading-digit code if and only if the most significant decimal
digit of v is 1, and it uses the prefixed-end terminator exactly in that
case (v = 0 is the one exception: its stream is a bare plain-end terminator
with no digit codes). -/
theorem c8_leading_digit_amended (v : Nat) (hv : 1 ≤ v) :
    (omitsLeading v ↔ msd v = 1) ∧ (prefixedEnd v ↔ msd v = 1) := by
  obtain ⟨dl, g, hds, hdl, hg, hval, hpos, hzero⟩ := digitsRev_spec v
  have hbody := bcdBody_eq v dl g hds
  have hg1 : 1 ≤ g := hpos hv
  have hmsd : msd v = g := by
    unfold msd
    rw [hds, List.getLastD_concat]
  have hfilter : (dl.reverse.filter (fun c => decide (c ≤ 9))) = dl.reverse := by
    apply List.filter_eq_self.mpr
    intro d hd
    have hlt2 := hdl d (List.mem_reverse.mp hd)
    simp only [decide_eq_true_eq]
    omega
  have hsingle : ∀ n : Nat, n ≤ 9 → ([n].filter (fun c => decide (c ≤ 9))) = [n] := by
    intro n hn
    simp [hn]
  have hsingle0 : ∀ n : Nat, 9 < n → ([n].filter (fun c => decide (c ≤ 9))) = [] := by
    intro n hn
    simp
    omega
  have hcount : digitCodeCount v = (if 1 < g then 1 else 0) + dl.length := by
    unfold digitCodeCount
    rw [hbody]
    rw [List.filter_append, List.filter_append, hfilter]
    by_cases hgg : 1 < g
    · rw [if_pos hgg, if_pos hgg, if_neg (by omega : ¬ g = 1),
        hsingle g (by omega), hsingle0 BCD_N (by norm_num [BCD_N])]
      simp
      omega
    · have hgeq : g = 1 := by omega
      rw [if_neg hgg, if_neg hgg, if_pos hgeq, hsingle0 BCD_P (by norm_num [BCD_P])]
      simp
  have hnum : numDigits v = dl.length + 1 := by
    unfold numDigits
    rw [hds]
    simp
  constructor
  · unfold omitsLeading
    rw [hcount, hnum, hmsd]
    by_cases hgg : 1 < g
    · rw [if_pos hgg]
      omega
    · rw [if_neg hgg]
      omega
  · unfold prefixedEnd
    rw [hbody, hmsd, List.getLastD_concat]
    by_cases hgo : g = 1
    · simp [hgo]
    · rw [if_neg hgo]
      constructor
      · intro h
        exact absurd h (by norm_num [BCD_N, BCD_P])
      · intro h
        exact absurd h hgo

/-- CLAIM C8 witness: v = 5 has leading digit 5, so its stream keeps the
digit code and the plain-end terminator. -/
theorem c8_leading_digit_amended_witness :
    (1 ≤ 5) ∧ ((omitsLeading 5 ↔ msd 5 = 1) ∧ (prefixedEnd 5 ↔ msd 5 = 1)) :=
  ⟨by decide, c8_leading_digit_amended 5 (by decide)⟩

/-- CLAIM C10: every nibble of an encoded literal is at most 11 (digit
codes 0..9, the two terminators 10 and 11, and the leading C_BCD opcode 0),
so none of the four bracket opcodes 12..15 can occur inside a literal and
the depth-tracking scans of jmp cannot mistake a literal interior for a
bracket. -/
theorem c10_literal_nibbles (v c : Nat) (hc : c ∈ emitBCDL v) :
    c ≤ 11 ∧ c ≠ C_JAO ∧ c ≠ C_JAC ∧ c ≠ C_JBO ∧ c ≠ C_JBC := by
  have hjao : C_JAO = 12 := rfl
  have hjac : C_JAC = 13 := rfl
  have hjbo : C_JBO = 14 := rfl
  have hjbc : C_JBC = 15 := rfl
  suffices h : c ≤ 11 by
    exact ⟨h, by omega, by omega, by omega, by omega⟩
  obtain ⟨dl, g, hds, hdl, hg, hval, hpos, hzero⟩ := digitsRev_spec v
  have hbody := bcdBody_eq v dl g hds
  unfold emitBCDL at hc
  rw [hbody] at hc
  simp only [C_BCD, List.mem_cons, List.mem_append, List.mem_singleton] at hc
  rcases hc with h | h
  · omega
  · rcases h with (h | h) | h
    · by_cases hgg : 1 < g
      · simp [hgg] at h
        omega
      · simp [hgg] at h
    · have := hdl c (List.mem_reverse.mp h)
      omega
    · by_cases hgo : g = 1
      · simp [hgo, BCD_P] at h
        omega
      · simp [hgo, BCD_N] at h
        omega

/-- CLAIM C10 witness: the terminator nibble 10 of the encoding of 0 is in
range and is no bracket opcode. -/
theorem c10_literal_nibbles_witness :
    (10 ∈ emitBCDL 0) ∧ 10 ≤ 11 ∧ 10 ≠ C_JAO :=
  ⟨by decide, (c10_literal_nibbles 0 10 (by decide)).1,
    (c10_literal_nibbles 0 10 (by decide)).2.1⟩

/-- CLAIM C1 (counterexample): running the program 5 2 - ends with operand
stack holding -3, not 3: the subtraction takes the first value popped (the
top, 2) as the left operand, as the opcode table and the negate example of
b4.c document. -/
theorem c1_sub_counterexample :
    finStack (runProg true 100 src52m) = some [-3] ∧
    some ([-3] : List Int) ≠ some ([3] : List Int) :=
  ⟨by decide, by decide⟩

/-- CLAIM C1 (amended): ADD pops y then x and pushes x + y; SUB pops y then
x and pushes y - x, the first value popped being the LEFT operand; lower
stack slots are untouched; consequently run(3 4 +) ends with stack [7] and
run(5 2 -) ends with stack [-3]. -/
theorem c1_arith_semantics :
    (∀ s : St,
      (popPush2 (fun y x => y + x) s).sp = s.sp - 1 ∧
      (popPush2 (fun y x => y + x) s).stf (s.sp - 2) = s.stf (s.sp - 2) + s.stf (s.sp - 1) ∧
      (popPush2 (fun y x => y - x) s).sp = s.sp - 1 ∧
      (popPush2 (fun y x => y - x) s).stf (s.sp - 2) = s.stf (s.sp - 1) - s.stf (s.sp - 2) ∧
      (∀ j : Int, j ≠ s.sp - 2 → (popPush2 (fun y x => y + x) s).stf j = s.stf j) ∧
      (∀ j : Int, j ≠ s.sp - 2 → (popPush2 (fun y x => y - x) s).stf j = s.stf j)) ∧
    finStack (runProg true 100 src34p) = some [7] ∧
    finStack (runProg true 100 src52m) = some [-3] := by
  refine ⟨?_, by decide, by decide⟩
  intro s
  have h2 : s.sp - 1 - 1 = s.sp - 2 := by ring
  refine ⟨?_, ?_, ?_, ?_, ?_, ?_⟩
  · simp only [popPush2, stPop, stPush]
    ring
  · simp only [popPush2, stPop, stPush, h2]
    simp
    ring
  · simp only [popPush2, stPop, stPush]
    ring
  · simp only [popPush2, stPop, stPush, h2]
    simp
  · intro j hj
    simp only [popPush2, stPop, stPush, h2]
    simp [hj]
  · intro j hj
    simp only [popPush2, stPop, stPush, h2]
    simp [hj]

/-- CLAIM C1 witness: in the demo state the slot at index -5 is untouched
by a subtraction step. -/
theorem c1_arith_semantics_witness :
    ((-5 : Int) ≠ demoSt.sp - 2) ∧
    (popPush2 (fun y x => y - x) demoSt).stf (-5) = demoSt.stf (-5) :=
  ⟨by decide, (c1_arith_semantics.1 demoSt).2.2.2.2.2 (-5) (by decide)⟩

/-- CLAIM C3: evidence that the branch cache is observable.  In the program
f:1=[?]:1.f 0.f the loop body between the brackets is one nibble long, so
the backward scan of the closing bracket and the forward scan of the
opening bracket start from the same nibble position and share one cache
slot; the first call populates it with the backward target (the loop body)
and the second call, reaching the opening bracket with 0, reuses it instead
of jumping past the loop: the cached machine ends with stack [1, 0, 1, 0]
while fresh resolution ends with [1, 0]. -/
theorem c3_branch_cache_divergence :
    finStack (runProg true 300 srcCache) = some [1, 0, 1, 0] ∧
    finStack (runProg false 300 srcCache) = some [1, 0] ∧
    ([1, 0, 1, 0] : List Int) ≠ [1, 0] :=
  ⟨by decide, by decide, by decide⟩

/-- CLAIM C4: evidence that popping an empty stack is not a reported fault.
The program + executes ADD on an empty operand stack; the pop macro
st[--sp] has no bounds check, so the run completes without any error while
the stack pointer ends at -1, outside the legal range. -/
theorem c4_pop_underflow_unchecked :
    finOk (runProg true 50 srcPlus) = true ∧
    finSp (runProg true 50 srcPlus) = some (-1) ∧ ((-1 : Int) < 0) :=
  ⟨by decide, by decide, by decide⟩

/-- CLAIM C5: evidence that the say builtin does not print exactly the
string.  Running (quote)Hi(quote).say pops the terminator and both
character codes (the stack ends empty), but the output bytes are
0, 72, 105, 10: the scan of swi starts at st[sp] (the stale slot above the
top, holding the just-popped nonzero function id) and the print loop starts
at the terminator index, so the NUL byte is written before H and i. -/
theorem c5_say_prints_terminator :
    finOut (runProg true 100 srcHiSay) = some [0, 72, 105, 10] ∧
    finStack (runProg true 100 srcHiSay) = some [] ∧
    some ([0, 72, 105, 10] : List Int) ≠ some ([72, 105, 10] : List Int) :=
  ⟨by decide, by decide, by decide⟩

/-- CLAIM C6: calling a bound function saves the caller's register in the
pushed frame and zeroes the register for the callee; the frame-popping
return step restores exactly the register (and range and position) stored
in the popped frame; and the end-to-end doubling example f:%+:5=3.f leaves
6 on the stack with the register back at its pre-call value 5. -/
theorem c6_call_register_frame :
    (∀ (s : St) (id : Int),
      (runFn id s).ra = 0 ∧
      (runFn id s).frames = { start := s.start, stop := s.stop, ip := s.ip, ra := s.ra } :: s.frames ∧
      (runFn id s).ip = (s.fns id).1 ∧ (runFn id s).start = (s.fns id).1 ∧
      (runFn id s).stop = (s.fns id).2) ∧
    (∀ (s : St) (f : Frame) (rest : List Frame),
      s.frames = f :: rest → rest ≠ [] →
      frameRet s =
        SR.next { s with ip := f.ip, start := f.start, stop := f.stop, ra := f.ra, frames := rest }) ∧
    finStack (runProg true 200 srcDouble) = some [6] ∧
    finRa (runProg true 200 srcDouble) = some 5 := by
  refine ⟨?_, ?_, by decide, by decide⟩
  · intro s id
    exact ⟨rfl, rfl, rfl, rfl, rfl⟩
  · intro s f rest hf hr
    cases rest with
    | nil => exact absurd rfl hr
    | cons a t =>
      unfold frameRet
      rw [hf]
      rfl

/-- CLAIM C6 witness: popping the frame pushed by calling the entry
function of a 5-nibble program restores the zeroed pre-call context. -/
theorem c6_call_register_frame_witness :
    ((runFn 3 (initSt 5)).frames =
      ({ start := 0, stop := 5, ip := 0, ra := 0 } : Frame) ::
        [({ start := 0, stop := 0, ip := 0, ra := 0 } : Frame)]) ∧
    (([({ start := 0, stop := 0, ip := 0, ra := 0 } : Frame)] : List Frame) ≠ []) ∧
    frameRet (runFn 3 (initSt 5)) =
      SR.next { runFn 3 (initSt 5) with ip := 0, start := 0, stop := 5, ra := 0, frames := [({ start := 0, stop := 0, ip := 0, ra := 0 } : Frame)] } :=
  ⟨rfl, List.cons_ne_nil _ _,
    c6_call_register_frame.2.1 (runFn 3 (initSt 5))
      { start := 0, stop := 5, ip := 0, ra := 0 }
      [{ start := 0, stop := 0, ip := 0, ra := 0 }] rfl (List.cons_ne_nil _ _)⟩

/-- CLAIM C7 (counterexample): assembling .a does not put the call code at
the position of the dot: the output is the codec encoding of the id of a
followed by the call code, not the call code followed by the id. -/
theorem c7_dot_counterexample :
    b4asm srcDotA = some [0, 4, 10, 10] ∧
    b4asm srcDotA ≠ some (C_RUN :: emitBCDL 4) :=
  ⟨by decide, by decide⟩

/-- One assembly step on a dot: when the following byte starts an
identifier the dot only sets the pending-call flag and emits nothing;
otherwise it emits exactly one call code. -/
theorem asmAux_dot (fuel : Nat) (p : List Nat) (rn : Bool) (tbl : List (List Nat)) :
    asmAux (fuel + 1) (46 :: p) rn tbl =
      (if identStart (p.headD 0) then asmAux fuel p true tbl
       else (asmAux fuel p rn tbl).map (fun r => (C_RUN :: r.1, r.2))) := rfl

/-- CLAIM C7 (amended): a dot whose following byte does not start an
identifier (letter or underscore; end of input reads as the NUL sentinel)
emits exactly one call code at that point; a dot followed by an identifier
start emits nothing at that point and instead sets the pending-call flag,
so the call code is emitted right after the identifier's encoded id. -/
theorem c7_dot_call_emission (src : List Nat) (rn : Bool) (tbl : List (List Nat)) :
    (identStart (src.headD 0) = false →
      asmFrom (46 :: src) rn tbl = (asmFrom src rn tbl).map (fun r => (C_RUN :: r.1, r.2))) ∧
    (identStart (src.headD 0) = true →
      asmFrom (46 :: src) rn tbl = asmFrom src true tbl) := by
  constructor
  · intro h
    unfold asmFrom
    simp only [List.length_cons]
    rw [asmAux_dot, h]
    simp
  · intro h
    unfold asmFrom
    simp only [List.length_cons]
    rw [asmAux_dot, h]
    simp

/-- CLAIM C7 witness: a dot followed by the digit 1 emits the call code
immediately. -/
theorem c7_dot_call_emission_witness :
    (identStart (([49] : List Nat).headD 0) = false) ∧
    asmFrom (46 :: [49]) false initTbl =
      (asmFrom [49] false initTbl).map (fun r => (C_RUN :: r.1, r.2)) :=
  ⟨by decide, (c7_dot_call_emission [49] false initTbl).1 (by decide)⟩

/-! Helper lemmas for the dfn_close scan. -/

/-- The literal-skipping scan never moves backward. -/
theorem skipBCDAux_ge : ∀ (fuel : Nat) (code : List Nat) (stop ip : Nat),
    ip ≤ skipBCDAux fuel code stop ip := by
  intro fuel
  induction fuel with
  | zero =>
    intro code stop ip
    simp [skipBCDAux]
  | succ f ih =>
    intro code stop ip
    unfold skipBCDAux
    by_cases h1 : stop ≤ ip
    · simp [h1]
    · rw [if_neg h1]
      by_cases h2 : nib code ip = BCD_N
      · simp [h2]
      · rw [if_neg h2]
        by_cases h3 : nib code ip = BCD_P
        · simp [h3]
        · rw [if_neg h3]
          exact le_trans (by omega) (ih code stop (ip + 1))

/-- The literal-skipping scan stops exactly on the first terminator nibble
when the positions before it hold digit codes and the terminator is still
inside the range. -/
theorem skipBCDAux_stops (code : List Nat) (stop : Nat) :
    ∀ (k q fuel : Nat), (∀ j, j < k → nib code (q + j) < 10) →
      (nib code (q + k) = BCD_N ∨ nib code (q + k) = BCD_P) →
      q + k ≤ stop → k < fuel →
      skipBCDAux fuel code stop q = q + k := by
  intro k
  induction k with
  | zero =>
    intro q fuel hd ht hle hf
    cases fuel with
    | zero => omega
    | succ f =>
      unfold skipBCDAux
      simp only [Nat.add_zero] at ht
      by_cases h1 : stop ≤ q
      · simp [h1]
      · rcases ht with h | h
        · simp [h1, h]
        · have hN : ¬ nib code q = BCD_N := by rw [h]; decide
          simp [h1, hN, h]
  | succ k ih =>
    intro q fuel hd ht hle hf
    cases fuel with
    | zero => omega
    | succ f =>
      unfold skipBCDAux
      have hq : nib code q < 10 := by
        have := hd 0 (by omega)
        simpa using this
      have h1 : ¬ stop ≤ q := by omega
      have hN : ¬ nib code q = BCD_N := by unfold BCD_N; omega
      have hP : ¬ nib code q = BCD_P := by unfold BCD_P; omega
      rw [if_neg h1, if_neg hN, if_neg hP]
      have hrec := ih (q + 1) f
        (fun j hj => by
          have := hd (j + 1) (by omega)
          have he : q + (j + 1) = q + 1 + j := by omega
          rw [he] at this
          exact this)
        (by
          have he : q + 1 + k = q + (k + 1) := by omega
          rw [he]
          exact ht)
        (by omega) (by omega)
      rw [hrec]
      omega

/-- One unfolding step of the dfn_close scan. -/
theorem dfnCloseAux_succ (f : Nat) (code : List Nat) (ip stop : Nat) :
    dfnCloseAux (f + 1) code ip stop =
      (if stop ≤ ip then none
       else if nib code ip = C_DFN then some (ip + 1)
       else if nib code ip = C_BCD then dfnCloseAux f code (skipBCD code stop ip + 1) stop
       else dfnCloseAux f code (ip + 1) stop) := rfl

/-- The dfn_close scan result does not depend on the fuel, as long as the
fuel covers the distance to the boundary. -/
theorem dfnCloseAux_fuel (code : List Nat) (stop : Nat) :
    ∀ f1 f2 ip, stop + 1 - ip ≤ f1 → stop + 1 - ip ≤ f2 →
      dfnCloseAux f1 code ip stop = dfnCloseAux f2 code ip stop := by
  intro f1
  induction f1 with
  | zero =>
    intro f2 ip h1 h2
    have hip : stop ≤ ip := by omega
    cases f2 with
    | zero => rfl
    | succ g => simp [dfnCloseAux, hip]
  | succ f ih =>
    intro f2 ip h1 h2
    cases f2 with
    | zero =>
      have hip : stop ≤ ip := by omega
      simp [dfnCloseAux, hip]
    | succ g =>
      by_cases hip : stop ≤ ip
      · simp [dfnCloseAux, hip]
      · unfold dfnCloseAux
        rw [if_neg hip, if_neg hip]
        by_cases h9 : nib code ip = C_DFN
        · rw [if_pos h9, if_pos h9]
        · rw [if_neg h9, if_neg h9]
          have hge : ip ≤ skipBCD code stop ip := skipBCDAux_ge (stop + 1 - ip) code stop ip
          by_cases h0 : nib code ip = C_BCD
          · rw [if_pos h0, if_pos h0]
            exact ih g (skipBCD code stop ip + 1) (by omega) (by omega)
          · rw [if_neg h0, if_neg h0]
            exact ih g (ip + 1) (by omega) (by omega)

/-- Soundness of the dfn_close scan: a successful result is past the
starting position, inside the range, and lands just past a C_DFN nibble. -/
theorem dfnCloseAux_sound (code : List Nat) (stop : Nat) :
    ∀ fuel ip r, dfnCloseAux fuel code ip stop = some r →
      ip < r ∧ r ≤ stop ∧ nib code (r - 1) = C_DFN := by
  intro fuel
  induction fuel with
  | zero =>
    intro ip r h
    exact absurd h (by simp [dfnCloseAux])
  | succ f ih =>
    intro ip r h
    unfold dfnCloseAux at h
    by_cases hip : stop ≤ ip
    · rw [if_pos hip] at h
      exact absurd h (by simp)
    · rw [if_neg hip] at h
      by_cases h9 : nib code ip = C_DFN
      · rw [if_pos h9] at h
        have hr : r = ip + 1 := by
          have := Option.some.inj h
          omega
        subst hr
        refine ⟨by omega, by omega, ?_⟩
        have he : ip + 1 - 1 = ip := by omega
        rw [he]
        exact h9
      · rw [if_neg h9] at h
        by_cases h0 : nib code ip = C_BCD
        · rw [if_pos h0] at h
          obtain ⟨ha, hb, hc⟩ := ih _ r h
          have hge : ip ≤ skipBCD code stop ip := skipBCDAux_ge (stop + 1 - ip) code stop ip
          exact ⟨by omega, hb, hc⟩
        · rw [if_neg h0] at h
          obtain ⟨ha, hb, hc⟩ := ih _ r h
          exact ⟨by omega, hb, hc⟩

/-- Shape of an encoded literal: the C_BCD opcode, a run of digit codes,
and one terminator nibble. -/
theorem emitBCDL_shape (v : Nat) :
    ∃ pre t, emitBCDL v = C_BCD :: (pre ++ [t]) ∧ (∀ d ∈ pre, d < 10) ∧
      (t = BCD_N ∨ t = BCD_P) := by
  obtain ⟨dl, g, hds, hdl, hg, hval, hpos, hzero⟩ := digitsRev_spec v
  refine ⟨(if 1 < g then [g] else []) ++ dl.reverse, if g = 1 then BCD_P else BCD_N, ?_, ?_, ?_⟩
  · unfold emitBCDL
    rw [bcdBody_eq v dl g hds]
  · intro d hd
    rcases List.mem_append.mp hd with h | h
    · by_cases hgg : 1 < g
      · simp [hgg] at h
        omega
      · simp [hgg] at h
    · exact hdl d (List.mem_reverse.mp h)
  · by_cases hgo : g = 1
    · simp [hgo]
    · simp [hgo]

/-- CLAIM C9: the DEFINE scan dfn_close.  A successful scan from position
ip lands just past a C_DFN terminator inside the range (so the recorded
body, from ip up to the result minus one, ends exactly at the terminator
and execution resumes just past it); a C_DFN nibble at the scan position is
taken immediately; a whole encoded literal sitting at the scan position is
skipped atomically, digits and terminator included, so a terminator inside
a literal is never mistaken for the function terminator; and a scan
starting at or past the end of the range fails (the fatal missing
terminator error); finally, executing the C_DFN opcode records exactly the
scanned range for the popped id and resumes past the terminator. -/
theorem c9_define_scan (code : List Nat) (ip stop : Nat) :
    (∀ r, dfnClose code ip stop = some r → ip < r ∧ r ≤ stop ∧ nib code (r - 1) = C_DFN) ∧
    (nib code ip = C_DFN → ip < stop → dfnClose code ip stop = some (ip + 1)) ∧
    (∀ v, codeAt code ip (emitBCDL v) → ip + (emitBCDL v).length ≤ stop →
      dfnClose code ip stop = dfnClose code (ip + (emitBCDL v).length) stop) ∧
    (stop ≤ ip → dfnClose code ip stop = none) := by
  refine ⟨?_, ?_, ?_, ?_⟩
  · intro r h
    exact dfnCloseAux_sound code stop (stop + 1 - ip) ip r h
  · intro h9 hlt
    obtain ⟨f, hf⟩ : ∃ f, stop + 1 - ip = f + 1 := ⟨stop - ip, by omega⟩
    have hdc1 : dfnClose code ip stop = dfnCloseAux (stop + 1 - ip) code ip stop := rfl
    rw [hdc1, hf, dfnCloseAux_succ, if_neg (by omega : ¬ stop ≤ ip), if_pos h9]
  · intro v hca hle
    obtain ⟨pre, t, hE, hpre10, ht⟩ := emitBCDL_shape v
    have hlen : (emitBCDL v).length = pre.length + 2 := by
      rw [hE]
      simp
    have h0 : nib code ip = C_BCD := by
      have := hca 0 (by omega)
      rw [hE] at this
      simpa using this
    have hdig : ∀ j, j < pre.length + 1 → nib code (ip + j) < 10 := by
      intro j hj
      cases j with
      | zero =>
        simp only [Nat.add_zero]
        rw [h0]
        decide
      | succ i =>
        have hi : i < pre.length := by omega
        have hj2 := hca (i + 1) (by omega)
        rw [hE, List.getD_cons_succ, List.getD_append pre [t] 0 i hi] at hj2
        rw [hj2, List.getD_eq_getElem pre 0 hi]
        exact hpre10 _ (List.getElem_mem hi)
    have hterm : nib code (ip + (pre.length + 1)) = t := by
      have hj2 := hca (pre.length + 1) (by omega)
      rw [hE, List.getD_cons_succ, List.getD_append_right pre [t] 0 pre.length (le_refl _)] at hj2
      simpa using hj2
    have hip : ip < stop := by omega
    obtain ⟨f, hf⟩ : ∃ f, stop + 1 - ip = f + 1 := ⟨stop - ip, by omega⟩
    have hdc1 : dfnClose code ip stop = dfnCloseAux (stop + 1 - ip) code ip stop := rfl
    have hdc2 : dfnClose code (ip + (emitBCDL v).length) stop =
        dfnCloseAux (stop + 1 - (ip + (emitBCDL v).length)) code
          (ip + (emitBCDL v).length) stop := rfl
    rw [hdc1, hdc2, hf, dfnCloseAux_succ, if_neg (by omega : ¬ stop ≤ ip),
      if_neg (by rw [h0]; decide), if_pos h0]
    have hskip : skipBCD code stop ip = ip + (pre.length + 1) := by
      unfold skipBCD
      exact skipBCDAux_stops code stop (pre.length + 1) ip (stop + 1 - ip) hdig
        (by rw [hterm]; exact ht) (by omega) (by omega)
    rw [hskip]
    have harith : ip + (pre.length + 1) + 1 = ip + (emitBCDL v).length := by omega
    rw [harith]
    exact dfnCloseAux_fuel code stop f (stop + 1 - (ip + (emitBCDL v).length))
      (ip + (emitBCDL v).length) (by omega) (by omega)
  · intro hle
    unfold dfnClose
    cases hsub : stop + 1 - ip with
    | zero => simp [dfnCloseAux]
    | succ f => simp [dfnCloseAux, hle]

/-- CLAIM C9 witness: a code consisting of the single terminator nibble is
matched at once, with execution resuming just past it. -/
theorem c9_define_scan_witness :
    (nib [C_DFN] 0 = C_DFN) ∧ (0 < 1) ∧ dfnClose [C_DFN] 0 1 = some (0 + 1) :=
  ⟨rfl, by decide, (c9_define_scan [C_DFN] 0 1).2.1 rfl (by decide)⟩

end B4
